import Mathlib

/-!
# Verification of the RL-Case-Study GridWorld value-estimation routines

Shallow embedding of the computational core of the repository
`Anirudh0314m/RL-Case-Study`: the 4×4 GridWorld environment and the
value-estimation algorithms found in `Value_Iteration_Algorithm.ipynb`
(function `value_iteration`) and in the notebooks embedded in `README.md`
(functions `dp_prediction` and `td_prediction`).

Python floats are modelled by exact rationals (`ℚ`); all numbers that the
claims mention are either small integers or short decimal fractions, so the
rational model agrees with the float computation on every quantity a claim
refers to.  NumPy arrays indexed by in-range coordinates are modelled as
`List (List ℚ)` with a total lookup `vget` (all reachable accesses are
in-range).  The unbounded Python `while` loops are modelled by structural
recursion on an explicit fuel argument; for `value_iteration` the fuel is
chosen large enough that the fuel-exhaustion branch is provably never taken
(the loop's own cap `iterations >= max_iters` always fires first), and for
the un-capped loops (`dp_prediction`, the TD episode loop) running out of
fuel is reported as `none`.
-/

set_option maxRecDepth 1000000

/- The library marks the rational field operations irreducible, which blocks
elaborator-side evaluation of concrete runs; the kernel re-checks every
`decide` proof below in full, so restoring default reducibility only lets
the elaborator perform the same computation the kernel does. -/
set_option allowUnsafeReducibility true in
attribute [semireducible] Rat.add Rat.mul Rat.sub Rat.inv Rat.div

/-- The value table: a grid of rationals (models the NumPy array). -/
abbrev Grid := List (List ℚ)

/-- `GRID_SIZE = 4` (module constant of every notebook). -/
def GRID_SIZE : ℤ := 4

/-- `initialize_grid`: `np.zeros((GRID_SIZE, GRID_SIZE))`. -/
def initialize_grid : Grid := List.replicate 4 (List.replicate 4 0)

/-- Array read `V[i, j]`.  Reachable reads are always in-range. -/
def vget (V : Grid) (i j : ℤ) : ℚ := (V.getD i.toNat []).getD j.toNat 0

/-- Array write `V[i, j] = x`.  Reachable writes are always in-range. -/
def vset (V : Grid) (i j : ℤ) (x : ℚ) : Grid :=
  V.set i.toNat ((V.getD i.toNat []).set j.toNat x)

/-- `actions = [(0, -1), (0, 1), (-1, 0), (1, 0)]` (LEFT, RIGHT, UP, DOWN). -/
def actions : List (ℤ × ℤ) := [(0, -1), (0, 1), (-1, 0), (1, 0)]

/-- `is_terminal(state)`: `state == (0, 0)`. -/
def is_terminal (s : ℤ × ℤ) : Bool := s = (0, 0)

/-- `get_next_states(state)`: one `((ni, nj), -1)` per action when the
displaced coordinate is in `[0, GRID_SIZE)` on both axes, else
`(state, -1)`.  (Identical definitions in the Value-Iteration and
Policy-Iteration notebooks.) -/
def get_next_states (s : ℤ × ℤ) : List ((ℤ × ℤ) × ℤ) :=
  actions.map fun a =>
    let ni := s.1 + a.1
    let nj := s.2 + a.2
    if 0 ≤ ni ∧ ni < GRID_SIZE ∧ 0 ≤ nj ∧ nj < GRID_SIZE then ((ni, nj), -1)
    else (s, -1)

/-- All sixteen grid states in sweep order (`i` outer, `j` inner). -/
def states : List (ℤ × ℤ) :=
  (List.range 4).flatMap fun i => (List.range 4).map fun j => ((i : ℤ), (j : ℤ))

/-- Python's two-argument `max` (kernel-reducible, unlike the lattice `⊔`). -/
def pymax (a b : ℚ) : ℚ := if a < b then b else a

/-- Python's `abs` (kernel-reducible). -/
def pyabs (a : ℚ) : ℚ := if a < 0 then -a else a

/-- Manhattan distance to the terminal state `(0, 0)`. -/
def manhattan (s : ℤ × ℤ) : ℕ := s.1.natAbs + s.2.natAbs

/-- Python's `max` on a list (raises on `[]`; only ever called on
four-element lists here, the `[]` clause is unreachable). -/
def listMax : List ℚ → ℚ
  | [] => 0
  | x :: xs => xs.foldl pymax x

/-- `delta`: the maximum over non-terminal states (terminal is skipped by
the `continue`) of `abs(new_V[i, j] - V[i, j])`, accumulated from `0` in
sweep order.  Shared shape between `value_iteration` and `dp_prediction`. -/
def sweepDelta (V newV : Grid) : ℚ :=
  states.foldl
    (fun d s =>
      if is_terminal s then d else pymax d (pyabs (vget newV s.1 s.2 - vget V s.1 s.2))) 0

namespace VI

/-- `GAMMA = 1.0` (Value-Iteration notebook). -/
def GAMMA : ℚ := 1

/-- `THETA = 1e-4` (Value-Iteration notebook). -/
def THETA : ℚ := 1 / 10000

/-- The list `action_values` built for state `(i, j)`: the notebook
recomputes the bounds check inline rather than calling `get_next_states`. -/
def action_values (V : Grid) (i j : ℤ) : List ℚ :=
  actions.map fun a =>
    let ni := i + a.1
    let nj := j + a.2
    if 0 ≤ ni ∧ ni < GRID_SIZE ∧ 0 ≤ nj ∧ nj < GRID_SIZE then -1 + GAMMA * vget V ni nj
    else -1 + GAMMA * vget V i j

/-- One synchronous Bellman-optimality sweep: `new_V[i, j] =
max(action_values)` for non-terminal states, terminal kept (the `continue`
leaves the `np.copy(V)` entry in place).  All reads go to the old `V`. -/
def sweep (V : Grid) : Grid :=
  (List.range 4).map fun i =>
    (List.range 4).map fun j =>
      if is_terminal ((i : ℤ), (j : ℤ)) then vget V i j
      else listMax (action_values V (i : ℤ) (j : ℤ))

/-- The `while True` loop of `value_iteration`, with `θ` exposed the way
§4.2 of the spec treats it (the notebook fixes `THETA`).  `fuel` only bounds
the recursion; with the entry fuel chosen in `value_iteration_run` the
`fuel = 0` fallback is unreachable because the source's own break condition
`iterations >= max_iters` fires first, so this equals the Python loop. -/
def loop (θ : ℚ) (max_iters : ℤ) : ℕ → Grid → ℕ → Grid × ℕ
  | fuel, V, iterations =>
    let newV := sweep V
    let delta := sweepDelta V newV
    if delta < θ ∨ ((iterations : ℤ) + 1 ≥ max_iters) then (newV, iterations + 1)
    else
      match fuel with
      | 0 => (newV, iterations + 1)
      | f + 1 => loop θ max_iters f newV (iterations + 1)

/-- `value_iteration(max_iters)` together with the sweep counter
`iterations` that the source prints on completion. -/
def value_iteration_run (θ : ℚ) (max_iters : ℤ) : Grid × ℕ :=
  loop θ max_iters (max_iters - 1).toNat initialize_grid 0

/-- `value_iteration(max_iters)`: the source returns only `V`. -/
def value_iteration (max_iters : ℤ) : Grid := (value_iteration_run THETA max_iters).1

/-- The sweep count `iterations` reached when `value_iteration` stops (the
source prints it; it is not part of the return value). -/
def vi_iterations (max_iters : ℤ) : ℕ := (value_iteration_run THETA max_iters).2

end VI

/-- The converged grid the spec's regression scenario names. -/
def targetGrid : Grid :=
  [[0, -1, -2, -3], [-1, -2, -3, -4], [-2, -3, -4, -5], [-3, -4, -5, -6]]

namespace DP

/-- `GAMMA = 0.9` (Policy-Iteration notebook embedded in the README). -/
def GAMMA : ℚ := 9 / 10

/-- `THETA = 1e-4` (Policy-Iteration notebook). -/
def THETA : ℚ := 1 / 10000

/-- `value_sum` for state `(i, j)`: the uniform-policy expectation
`Σ (1/len(ACTIONS)) * (reward + GAMMA * V[next_state])` accumulated from
`0` over `get_next_states((i, j))`. -/
def value_sum (V : Grid) (i j : ℤ) : ℚ :=
  (get_next_states (i, j)).foldl
    (fun acc t => acc + (1 / (actions.length : ℚ)) * ((t.2 : ℚ) + GAMMA * vget V t.1.1 t.1.2)) 0

/-- One synchronous expectation sweep of `dp_prediction`: `new_V[i, j] =
value_sum` for non-terminal states, terminal kept. -/
def sweep (V : Grid) : Grid :=
  (List.range 4).map fun i =>
    (List.range 4).map fun j =>
      if is_terminal ((i : ℤ), (j : ℤ)) then vget V i j
      else value_sum V (i : ℤ) (j : ℤ)

/-- The `while True` loop of `dp_prediction`, with `θ` exposed the way §4.2
of the spec treats it.  The source loop has **no** iteration cap: its only
exit is `delta < THETA`, so running out of fuel (`none`) models a
non-terminating run. -/
def loopAux (θ : ℚ) : ℕ → Grid → Option Grid
  | 0, _ => none
  | fuel + 1, V =>
    let newV := sweep V
    let delta := sweepDelta V newV
    if delta < θ then some newV else loopAux θ fuel newV

/-- `dp_prediction()`, run with the given amount of fuel. -/
def dp_prediction (fuel : ℕ) : Option Grid := loopAux THETA fuel initialize_grid

/-- The table a converged `dp_prediction()` run returns (300 sweeps of fuel
are enough; `claim_C7_monotonicity` certifies `isSome`). -/
def dp_result : Grid := (dp_prediction 300).getD initialize_grid

end DP

namespace TD

/-- `ALPHA = 0.1` (TD notebook embedded in the README). -/
def ALPHA : ℚ := 1 / 10

/-- `GAMMA = 0.9` (TD notebook). -/
def GAMMA : ℚ := 9 / 10

/-- `EPISODES = 1000` (TD notebook). -/
def EPISODES : ℤ := 1000

/-- `get_next_state(state, action)` of the TD notebook: an `if`/`elif`
chain over the action index (0 UP, 1 DOWN, 2 LEFT, 3 RIGHT) that moves only
when the move stays on the grid. -/
def get_next_state (s : ℤ × ℤ) (action : ℕ) : ℤ × ℤ :=
  let i := s.1
  let j := s.2
  if action = 0 ∧ i > 0 then (i - 1, j)
  else if action = 1 ∧ i < GRID_SIZE - 1 then (i + 1, j)
  else if action = 2 ∧ j > 0 then (i, j - 1)
  else if action = 3 ∧ j < GRID_SIZE - 1 then (i, j + 1)
  else (i, j)

/-- One TD(0) update: `V[state] += ALPHA * (reward + GAMMA * V[next_state]
- V[state])` with `reward = -1` and `next_state = get_next_state(state,
action)`. -/
def td_update (V : Grid) (s : ℤ × ℤ) (action : ℕ) : Grid :=
  let s' := get_next_state s action
  let reward : ℚ := -1
  vset V s.1 s.2
    (vget V s.1 s.2 + ALPHA * (reward + GAMMA * vget V s'.1 s'.2 - vget V s.1 s.2))

/-- The inner `while state != (0, 0)` loop of one episode.  `ρ` is the
stream of values drawn from the random generator (`np.random.choice(4)` is
modelled as `ρ k % 4`, `k` the number of draws made so far); the result
carries the updated table and the new stream position.  The source loop has
no step cap, so exhausting the fuel while still non-terminal gives `none`. -/
def episode (ρ : ℕ → ℕ) : ℕ → Grid → ℤ × ℤ → ℕ → Option (Grid × ℕ)
  | fuel, V, s, k =>
    if s = (0, 0) then some (V, k)
    else
      match fuel with
      | 0 => none
      | f + 1 => episode ρ f (td_update V s (ρ k % 4)) (get_next_state s (ρ k % 4)) (k + 1)

/-- The start state of an episode:
`(np.random.randint(0, GRID_SIZE), np.random.randint(0, GRID_SIZE))`,
drawing two stream values. -/
def episodeStart (ρ : ℕ → ℕ) (k : ℕ) : ℤ × ℤ := ((ρ k % 4 : ℕ), (ρ (k + 1) % 4 : ℕ))

/-- The `for episode in range(1, EPISODES + 1)` loop: `n` episodes, each
from a fresh random start. -/
def run (ρ : ℕ → ℕ) (fuel : ℕ) : ℕ → Grid → ℕ → Option (Grid × ℕ)
  | 0, V, k => some (V, k)
  | n + 1, V, k =>
    match episode ρ fuel V (episodeStart ρ k) (k + 2) with
    | none => none
    | some (V', k') => run ρ fuel n V' k'

/-- `td_prediction()`, with the episode count exposed the way §6 of the
spec treats it (`range(1, episodes + 1)` runs `max(episodes, 0)` times). -/
def td_prediction (ρ : ℕ → ℕ) (fuel : ℕ) (episodes : ℤ) : Option Grid :=
  (run ρ fuel episodes.toNat initialize_grid 0).map Prod.fst

end TD

namespace MC

/-- Modelled from the spec: the Monte Carlo notebook
(`MC_Prediction_Algorithm.ipynb`) is named by the README but its code is
not under `src/`.  Following §4.3 "Monte Carlo mode": run a full trajectory
from a random start to termination while recording the sequence of visited
states and rewards.  Every step pays reward `-1`; the environment step is
the shared GridWorld transition. -/
def trajectory (ρ : ℕ → ℕ) : ℕ → ℤ × ℤ → ℕ → Option (List ((ℤ × ℤ) × ℚ) × ℕ)
  | fuel, s, k =>
    if s = (0, 0) then some ([], k)
    else
      match fuel with
      | 0 => none
      | f + 1 =>
        match trajectory ρ f (TD.get_next_state s (ρ k % 4)) (k + 1) with
        | none => none
        | some (rest, k') => some ((s, (-1 : ℚ)) :: rest, k')

/-- Modelled from the spec: the discounted return of a whole reward list,
`G = R_0 + γ R_1 + γ² R_2 + ...`, computed backward from the end of the
episode. -/
def returnOf (γ : ℚ) (rewards : List ℚ) : ℚ :=
  rewards.foldr (fun r acc => r + γ * acc) 0

/-- Modelled from the spec: the list of returns `G_t`, one per visited
state, computed backward (`G_t = R_t + γ * G_{t+1}`). -/
def returnsList (γ : ℚ) : List ℚ → List ℚ
  | [] => []
  | r :: rest => (r + γ * (returnsList γ rest).headD 0) :: returnsList γ rest

/-- Per-state visit counters for incremental averaging. -/
abbrev Counts := List (List ℕ)

/-- Counter read (same indexing discipline as `vget`). -/
def cget (C : Counts) (i j : ℤ) : ℕ := (C.getD i.toNat []).getD j.toNat 0

/-- Counter write. -/
def cset (C : Counts) (i j : ℤ) (n : ℕ) : Counts :=
  C.set i.toNat ((C.getD i.toNat []).set j.toNat n)

/-- Modelled from the spec: walk the `(state, G_t)` pairs of one episode in
order and move each visited state's value toward the observed return by
incremental averaging `V(s) += (G - V(s)) / (count(s) + 1)`.  With
`firstVisit = true` a state already seen earlier in the episode is skipped
(first-visit averaging); with `firstVisit = false` every visit updates
(every-visit averaging). -/
def applyReturns (firstVisit : Bool) :
    List ((ℤ × ℤ) × ℚ) → List (ℤ × ℤ) → Grid → Counts → Grid × Counts
  | [], _, V, C => (V, C)
  | (s, G) :: rest, seen, V, C =>
    if firstVisit ∧ s ∈ seen then applyReturns firstVisit rest seen V C
    else
      let n := cget C s.1 s.2
      let v := vget V s.1 s.2
      applyReturns firstVisit rest (s :: seen)
        (vset V s.1 s.2 (v + (G - v) / ((n : ℚ) + 1))) (cset C s.1 s.2 (n + 1))

/-- Modelled from the spec: process one recorded episode — compute the
returns backward, then update the visited states. -/
def mc_episode (firstVisit : Bool) (γ : ℚ) (traj : List ((ℤ × ℤ) × ℚ))
    (V : Grid) (C : Counts) : Grid × Counts :=
  applyReturns firstVisit ((traj.map Prod.fst).zip (returnsList γ (traj.map Prod.snd))) [] V C

/-- Modelled from the spec: the Monte Carlo episode loop — for a configured
number of episodes, generate a trajectory from a random start and update
toward its returns. -/
def mc_run (firstVisit : Bool) (γ : ℚ) (ρ : ℕ → ℕ) (fuel : ℕ) :
    ℕ → Grid → Counts → ℕ → Option (Grid × Counts × ℕ)
  | 0, V, C, k => some (V, C, k)
  | n + 1, V, C, k =>
    match trajectory ρ fuel (TD.episodeStart ρ k) (k + 2) with
    | none => none
    | some (traj, k') =>
      let VC := mc_episode firstVisit γ traj V C
      mc_run firstVisit γ ρ fuel n VC.1 VC.2 k'

/-- Modelled from the spec: Monte Carlo prediction with caller-selected
first-visit/every-visit averaging, discount `γ` and episode count. -/
def mc_prediction (firstVisit : Bool) (γ : ℚ) (ρ : ℕ → ℕ) (fuel : ℕ)
    (episodes : ℤ) : Option Grid :=
  (mc_run firstVisit γ ρ fuel episodes.toNat initialize_grid
      (List.replicate 4 (List.replicate 4 0)) 0).map Prod.fst

end MC

/-- A coordinate pair lying on the 4×4 grid. -/
def InRange (s : ℤ × ℤ) : Prop := 0 ≤ s.1 ∧ s.1 < 4 ∧ 0 ≤ s.2 ∧ s.2 < 4

/-- A well-formed 4×4 table. -/
def GridShape (V : Grid) : Prop := V.length = 4 ∧ ∀ r ∈ V, r.length = 4

/-- The displacement the spec's description of the TD environment
associates with each action index (0 UP, 1 DOWN, 2 LEFT, 3 RIGHT). -/
def tdMove : ℕ → ℤ × ℤ
  | 0 => (-1, 0)
  | 1 => (1, 0)
  | 2 => (0, -1)
  | _ => (0, 1)

section Helpers

lemma le_pymax_left (d x : ℚ) : d ≤ pymax d x := by
  unfold pymax; split
  · exact le_of_lt (by assumption)
  · exact le_rfl

lemma pymax_nonpos {d x : ℚ} (hd : d ≤ 0) (hx : x ≤ 0) : pymax d x ≤ 0 := by
  unfold pymax; split <;> assumption

lemma pyabs_nonneg (a : ℚ) : 0 ≤ pyabs a := by
  unfold pyabs; split
  · linarith [lt_of_lt_of_le (show a < 0 by assumption) (le_refl (0 : ℚ))]
  · exact le_of_not_lt (by assumption)

lemma le_foldl_of_le (f : ℚ → ℤ × ℤ → ℚ) (hf : ∀ d s, d ≤ f d s) :
    ∀ (l : List (ℤ × ℤ)) (d : ℚ), d ≤ l.foldl f d := by
  intro l
  induction l with
  | nil => intro d; exact le_rfl
  | cons x xs ih => intro d; exact le_trans (hf d x) (ih (f d x))

/-- `delta` is accumulated through `max` starting from `0`, so it is never
negative. -/
lemma sweepDelta_nonneg (V W : Grid) : 0 ≤ sweepDelta V W := by
  unfold sweepDelta
  apply le_foldl_of_le
  intro d s
  split
  · exact le_rfl
  · exact le_pymax_left _ _

lemma foldl_pymax_nonpos :
    ∀ (l : List ℚ) (a : ℚ), a ≤ 0 → (∀ x ∈ l, x ≤ 0) → l.foldl pymax a ≤ 0 := by
  intro l
  induction l with
  | nil => intro a ha _; exact ha
  | cons x xs ih =>
    intro a ha h
    exact ih _ (pymax_nonpos ha (h x (by simp))) fun y hy => h y (by simp [hy])

lemma listMax_nonpos {l : List ℚ} (h : ∀ x ∈ l, x ≤ 0) : listMax l ≤ 0 := by
  cases l with
  | nil => exact le_rfl
  | cons x xs =>
    exact foldl_pymax_nonpos xs x (h x (by simp)) fun y hy => h y (by simp [hy])

/-- Every transition produced by `get_next_states` carries reward `-1`. -/
lemma reward_neg_one {s : ℤ × ℤ} {t : (ℤ × ℤ) × ℤ}
    (ht : t ∈ get_next_states s) : t.2 = -1 := by
  unfold get_next_states at ht
  obtain ⟨a, _, rfl⟩ := List.mem_map.1 ht
  dsimp only
  split <;> rfl

lemma vget_of_all {V : Grid} (h : ∀ r ∈ V, ∀ x ∈ r, x ≤ 0) (i j : ℤ) :
    vget V i j ≤ 0 := by
  unfold vget
  simp only [List.getD_eq_getElem?_getD]
  cases hrow : V[i.toNat]? with
  | none => simp
  | some r =>
    simp only [Option.getD_some]
    cases hx : r[j.toNat]? with
    | none => simp
    | some x =>
      simp only [Option.getD_some]
      exact h r (List.getElem?_mem hrow) x (List.getElem?_mem hx)

lemma all_of_vget {V : Grid} (h : ∀ i j : ℤ, vget V i j ≤ 0) :
    ∀ r ∈ V, ∀ x ∈ r, x ≤ 0 := by
  intro r hr x hx
  obtain ⟨a, ha, rfl⟩ := List.mem_iff_getElem.1 hr
  obtain ⟨b, hb, rfl⟩ := List.mem_iff_getElem.1 hx
  have h2 := h (a : ℤ) (b : ℤ)
  unfold vget at h2
  simp only [Int.toNat_natCast, List.getD_eq_getElem?_getD] at h2
  rwa [List.getElem?_eq_getElem ha, Option.getD_some,
    List.getElem?_eq_getElem hb, Option.getD_some] at h2

/-- Reading a slot other than the one `vset` wrote gives the old value. -/
lemma vget_vset_of_ne (V : Grid) {i j i' j' : ℤ} (x : ℚ)
    (h : i.toNat ≠ i'.toNat ∨ j.toNat ≠ j'.toNat) :
    vget (vset V i j x) i' j' = vget V i' j' := by
  unfold vget vset
  simp only [List.getD_eq_getElem?_getD]
  rcases h with h | h
  · rw [List.getElem?_set_ne h]
  · rcases eq_or_ne i.toNat i'.toNat with he | hne
    · rw [← he, List.getElem?_set]
      rw [if_pos rfl]
      by_cases hlen : i.toNat < V.length
      · rw [if_pos hlen, Option.getD_some, List.getElem?_set_ne h]
      · rw [if_neg hlen, Option.getD_none,
          List.getElem?_eq_none (le_of_not_lt hlen), Option.getD_none]
    · rw [List.getElem?_set_ne hne]

/-- Reading back the slot `vset` wrote, on a well-formed in-range grid. -/
lemma vget_vset_self {V : Grid} (hV : GridShape V) {i j : ℤ} (x : ℚ)
    (hs : 0 ≤ i ∧ i < 4 ∧ 0 ≤ j ∧ j < 4) :
    vget (vset V i j x) i j = x := by
  obtain ⟨hlen, hrow⟩ := hV
  have hi : i.toNat < V.length := by omega
  have hjr : j.toNat < ((V.getD i.toNat [])).length := by
    have hmem : V[i.toNat] ∈ V := List.getElem_mem hi
    rw [List.getD_eq_getElem?_getD, List.getElem?_eq_getElem hi, Option.getD_some]
    have := hrow _ hmem
    omega
  unfold vget vset
  simp only [List.getD_eq_getElem?_getD] at hjr ⊢
  rw [List.getElem?_set_self hi, Option.getD_some, List.getElem?_set_self hjr,
    Option.getD_some]

end Helpers

section LoopLemmas

/-- When the break condition holds the loop returns after this sweep. -/
lemma VI.loop_stop (θ : ℚ) (m : ℤ) (fuel : ℕ) (V : Grid) (k : ℕ)
    (h : sweepDelta V (VI.sweep V) < θ ∨ ((k : ℤ) + 1 ≥ m)) :
    VI.loop θ m fuel V k = (VI.sweep V, k + 1) := by
  cases fuel with
  | zero =>
    conv_lhs => rw [VI.loop]
    rw [if_pos h]
  | succ f =>
    conv_lhs => rw [VI.loop]
    rw [if_pos h]

/-- When the break condition fails the loop continues with the new table. -/
lemma VI.loop_step (θ : ℚ) (m : ℤ) (fuel : ℕ) (V : Grid) (k : ℕ) (hf : fuel ≠ 0)
    (h : ¬(sweepDelta V (VI.sweep V) < θ ∨ ((k : ℤ) + 1 ≥ m))) :
    VI.loop θ m fuel V k = VI.loop θ m (fuel - 1) (VI.sweep V) (k + 1) := by
  cases fuel with
  | zero => exact absurd rfl hf
  | succ f =>
    conv_lhs => rw [VI.loop]
    rw [if_neg h]
    rfl

/-- The loop performs at most `fuel + 1` further sweeps. -/
lemma VI.loop_iterations_le (θ : ℚ) (m : ℤ) :
    ∀ (fuel : ℕ) (V : Grid) (k : ℕ), (VI.loop θ m fuel V k).2 ≤ k + 1 + fuel := by
  intro fuel
  induction fuel with
  | zero =>
    intro V k
    conv_lhs => rw [VI.loop]
    split
    · omega
    · omega
  | succ f ih =>
    intro V k
    conv_lhs => rw [VI.loop]
    split
    · omega
    · calc (VI.loop θ m f (VI.sweep V) (k + 1)).2 ≤ (k + 1) + 1 + f := ih _ _
        _ ≤ k + 1 + (f + 1) := by omega

/-- With a non-positive threshold `dp_prediction`'s loop can never break:
`delta` is a maximum accumulated from `0`, hence never `< θ ≤ 0`. -/
lemma DP.loop_none_of_theta_nonpos {θ : ℚ} (hθ : θ ≤ 0) :
    ∀ (fuel : ℕ) (V : Grid), DP.loopAux θ fuel V = none := by
  intro fuel
  induction fuel with
  | zero => intro V; rfl
  | succ f ih =>
    intro V
    conv_lhs => rw [DP.loopAux]
    rw [if_neg (not_lt.mpr (le_trans hθ (sweepDelta_nonneg _ _)))]
    exact ih _

end LoopLemmas

section TDLemmas

/-- Any transition of the TD environment keeps the state on the grid. -/
lemma TD.get_next_state_range {s : ℤ × ℤ} (a : ℕ) (hs : InRange s) :
    InRange (TD.get_next_state s a) := by
  obtain ⟨h1, h2, h3, h4⟩ := hs
  unfold TD.get_next_state
  simp only [GRID_SIZE]
  split_ifs <;> exact ⟨by omega, by omega, by omega, by omega⟩

/-- Episode start states are drawn from the grid (`randint(0, 4)` twice). -/
lemma TD.episodeStart_range (ρ : ℕ → ℕ) (k : ℕ) : InRange (TD.episodeStart ρ k) := by
  refine ⟨?_, ?_, ?_, ?_⟩ <;> · dsimp only [TD.episodeStart]; omega

/-- A TD update at a non-terminal in-range state leaves the terminal slot
unchanged. -/
lemma TD.td_update_keep {V : Grid} {s : ℤ × ℤ} (a : ℕ) (hs : InRange s)
    (hne : s ≠ (0, 0)) : vget (TD.td_update V s a) 0 0 = vget V 0 0 := by
  obtain ⟨h1, h2, h3, h4⟩ := hs
  have hor : s.1.toNat ≠ (0 : ℤ).toNat ∨ s.2.toNat ≠ (0 : ℤ).toNat := by
    by_contra hc
    push_neg at hc
    apply hne
    obtain ⟨hc1, hc2⟩ := hc
    have e1 : s.1 = 0 := by omega
    have e2 : s.2 = 0 := by omega
    exact Prod.ext e1 e2
  unfold TD.td_update
  exact vget_vset_of_ne V _ hor

/-- Invariants preserved by guarded TD updates survive a whole episode. -/
lemma TD.episode_inv (P : Grid → Prop)
    (hP : ∀ (V : Grid) (s : ℤ × ℤ) (a : ℕ), InRange s → s ≠ (0, 0) → P V →
      P (TD.td_update V s a)) (ρ : ℕ → ℕ) :
    ∀ (fuel : ℕ) (V : Grid) (s : ℤ × ℤ) (k : ℕ) (V' : Grid) (k' : ℕ),
      InRange s → P V → TD.episode ρ fuel V s k = some (V', k') → P V' := by
  intro fuel
  induction fuel with
  | zero =>
    intro V s k V' k' hs hV h
    rw [TD.episode] at h
    split at h
    · simp only [Option.some.injEq, Prod.mk.injEq] at h
      exact h.1 ▸ hV
    · exact absurd h (by simp)
  | succ f ih =>
    intro V s k V' k' hs hV h
    rw [TD.episode] at h
    split at h
    · simp only [Option.some.injEq, Prod.mk.injEq] at h
      exact h.1 ▸ hV
    · rename_i hne
      exact ih _ _ _ _ _ (TD.get_next_state_range _ hs) (hP V s _ hs hne hV) h

/-- Invariants preserved by guarded TD updates survive any number of
episodes. -/
lemma TD.run_inv (P : Grid → Prop)
    (hP : ∀ (V : Grid) (s : ℤ × ℤ) (a : ℕ), InRange s → s ≠ (0, 0) → P V →
      P (TD.td_update V s a)) (ρ : ℕ → ℕ) (fuel : ℕ) :
    ∀ (n : ℕ) (V : Grid) (k : ℕ) (V' : Grid) (k' : ℕ),
      P V → TD.run ρ fuel n V k = some (V', k') → P V' := by
  intro n
  induction n with
  | zero =>
    intro V k V' k' hV h
    rw [TD.run] at h
    simp only [Option.some.injEq, Prod.mk.injEq] at h
    exact h.1 ▸ hV
  | succ nn ih =>
    intro V k V' k' hV h
    rw [TD.run] at h
    cases heq : TD.episode ρ fuel V (TD.episodeStart ρ k) (k + 2) with
    | none => rw [heq] at h; exact absurd h (by simp)
    | some p =>
      rw [heq] at h
      exact ih p.1 p.2 V' k'
        (TD.episode_inv P hP ρ fuel V (TD.episodeStart ρ k) (k + 2) p.1 p.2
          (TD.episodeStart_range ρ k) hV (by rw [heq])) h

end TDLemmas

section NonposLemmas

lemma foldl_add_nonpos {α : Type} (f : α → ℚ) :
    ∀ (l : List α) (acc : ℚ), acc ≤ 0 → (∀ t ∈ l, f t ≤ 0) →
      l.foldl (fun a t => a + f t) acc ≤ 0 := by
  intro l
  induction l with
  | nil => intro acc ha _; exact ha
  | cons x xs ih =>
    intro acc ha h
    exact ih _ (by dsimp only; linarith [h x (by simp)]) fun y hy => h y (by simp [hy])

lemma sum_map_mul (c : ℚ) (f : ℕ → ℚ) :
    ∀ l : List ℕ, (l.map fun k => c * f k).sum = c * (l.map f).sum := by
  intro l
  induction l with
  | nil => simp
  | cons x xs ih => simp [ih, mul_add]

/-- Every entry the Bellman-optimality sweep writes is `≤ 0` when the old
table is (`max` of values of the form `-1 + γ·V(s')`). -/
lemma VI.vi_sweep_nonpos {V : Grid} (hV : ∀ i j : ℤ, vget V i j ≤ 0) :
    ∀ i j : ℤ, vget (VI.sweep V) i j ≤ 0 := by
  apply vget_of_all
  intro r hr x hx
  obtain ⟨a, _, rfl⟩ := List.mem_map.1 hr
  obtain ⟨b, _, rfl⟩ := List.mem_map.1 hx
  split
  · exact hV _ _
  · apply listMax_nonpos
    intro y hy
    unfold VI.action_values at hy
    obtain ⟨c, _, rfl⟩ := List.mem_map.1 hy
    dsimp only
    split
    · have := hV ((a : ℤ) + c.1) ((b : ℤ) + c.2)
      simp only [VI.GAMMA, one_mul]
      linarith
    · have := hV (a : ℤ) (b : ℤ)
      simp only [VI.GAMMA, one_mul]
      linarith

/-- The uniform-policy expectation is `≤ 0` when the old table is (a convex
combination of values of the form `-1 + γ·V(s')`). -/
lemma DP.value_sum_nonpos {V : Grid} (hV : ∀ i j : ℤ, vget V i j ≤ 0) (i j : ℤ) :
    DP.value_sum V i j ≤ 0 := by
  unfold DP.value_sum
  apply foldl_add_nonpos _ _ _ le_rfl
  intro t ht
  have hr : t.2 = -1 := reward_neg_one ht
  have hv := hV t.1.1 t.1.2
  rw [hr]
  simp only [DP.GAMMA, actions, List.length_cons, List.length_nil]
  push_cast
  nlinarith

lemma DP.dp_sweep_nonpos {V : Grid} (hV : ∀ i j : ℤ, vget V i j ≤ 0) :
    ∀ i j : ℤ, vget (DP.sweep V) i j ≤ 0 := by
  apply vget_of_all
  intro r hr x hx
  obtain ⟨a, _, rfl⟩ := List.mem_map.1 hr
  obtain ⟨b, _, rfl⟩ := List.mem_map.1 hx
  split
  · exact hV _ _
  · exact DP.value_sum_nonpos hV _ _

/-- A TD(0) update writes `(1-α)·V(s) + α·(-1 + γ·V(s')) ≤ 0` and keeps
every other entry, so non-positivity of the table is preserved. -/
lemma TD.td_update_nonpos {V : Grid} (hV : ∀ i j : ℤ, vget V i j ≤ 0)
    (s : ℤ × ℤ) (a : ℕ) : ∀ i j : ℤ, vget (TD.td_update V s a) i j ≤ 0 := by
  have hnew : vget V s.1 s.2 + TD.ALPHA * (-1 + TD.GAMMA *
      vget V (TD.get_next_state s a).1 (TD.get_next_state s a).2 - vget V s.1 s.2) ≤ 0 := by
    have h1 := hV s.1 s.2
    have h2 := hV (TD.get_next_state s a).1 (TD.get_next_state s a).2
    simp only [TD.ALPHA, TD.GAMMA]
    linarith
  apply vget_of_all
  unfold TD.td_update vset
  intro r hr x hx
  rcases List.mem_or_eq_of_mem_set hr with hrV | hreq
  · exact all_of_vget hV r hrV x hx
  · subst hreq
    rcases List.mem_or_eq_of_mem_set hx with hxr | hxeq
    · cases hg : V[s.1.toNat]? with
      | none =>
        rw [List.getD_eq_getElem?_getD, hg, Option.getD_none] at hxr
        exact absurd hxr (List.not_mem_nil x)
      | some r0 =>
        rw [List.getD_eq_getElem?_getD, hg, Option.getD_some] at hxr
        exact all_of_vget hV r0 (List.getElem?_mem hg) x hxr
    · subst hxeq
      exact hnew

end NonposLemmas

section MCLemmas

/-- The head of the backward returns list is the return of the whole
reward sequence. -/
lemma MC.headD_returnsList (γ : ℚ) :
    ∀ l : List ℚ, (MC.returnsList γ l).headD 0 = MC.returnOf γ l := by
  intro l
  induction l with
  | nil => rfl
  | cons r rest ih =>
    show r + γ * (MC.returnsList γ rest).headD 0 = MC.returnOf γ (r :: rest)
    rw [ih]
    rfl

/-- States never written by the averaging pass keep their value. -/
lemma MC.applyReturns_unvisited (fv : Bool) :
    ∀ (pairs : List ((ℤ × ℤ) × ℚ)) (seen : List (ℤ × ℤ)) (V : Grid) (C : MC.Counts)
      (i j : ℤ), (∀ p ∈ pairs, p.1.1.toNat ≠ i.toNat ∨ p.1.2.toNat ≠ j.toNat) →
      vget (MC.applyReturns fv pairs seen V C).1 i j = vget V i j := by
  intro pairs
  induction pairs with
  | nil => intro seen V C i j _; rfl
  | cons pr rest ih =>
    intro seen V C i j h
    obtain ⟨s, G⟩ := pr
    rw [MC.applyReturns]
    split
    · exact ih _ _ _ _ _ fun p hp => h p (by simp [hp])
    · rw [ih _ _ _ _ _ fun p hp => h p (by simp [hp])]
      exact vget_vset_of_ne V _ (h (s, G) (by simp))

end MCLemmas

/-- C2: for every state `(row, col)` with `0 ≤ row, col < 4` and every one
of the four actions, the environment transition yields reward `-1`, and its
next state is the displaced coordinate when that coordinate is within
`[0, N)` on both axes and the original state unchanged when the displaced
coordinate is out of bounds on either axis.  Covers `get_next_states` (the
shared model-based environment) and the TD notebook's `get_next_state`. -/
theorem claim_C2_env_transitions (i j : ℤ)
    (hi0 : 0 ≤ i) (hi4 : i < 4) (hj0 : 0 ≤ j) (hj4 : j < 4) :
    (∀ t ∈ get_next_states (i, j), t.2 = -1) ∧
    (∀ a ∈ actions,
      ((if 0 ≤ i + a.1 ∧ i + a.1 < GRID_SIZE ∧ 0 ≤ j + a.2 ∧ j + a.2 < GRID_SIZE then
          (i + a.1, j + a.2) else (i, j)), (-1 : ℤ)) ∈ get_next_states (i, j)) ∧
    (∀ action : ℕ, action < 4 →
      TD.get_next_state (i, j) action =
        if 0 ≤ i + (tdMove action).1 ∧ i + (tdMove action).1 < GRID_SIZE ∧
            0 ≤ j + (tdMove action).2 ∧ j + (tdMove action).2 < GRID_SIZE then
          (i + (tdMove action).1, j + (tdMove action).2)
        else (i, j)) := by
  interval_cases i <;> interval_cases j <;> exact ⟨by decide, by decide, by decide⟩

/-- Witness for C2 at the corner `(0, 3)`: a blocked move self-transitions
and still pays `-1`. -/
theorem claim_C2_witness :
    (∀ t ∈ get_next_states (0, 3), t.2 = -1) ∧
    (∀ a ∈ actions,
      ((if 0 ≤ 0 + a.1 ∧ 0 + a.1 < GRID_SIZE ∧ 0 ≤ 3 + a.2 ∧ 3 + a.2 < GRID_SIZE then
          (0 + a.1, 3 + a.2) else ((0 : ℤ), (3 : ℤ))), (-1 : ℤ)) ∈ get_next_states (0, 3)) ∧
    (∀ action : ℕ, action < 4 →
      TD.get_next_state (0, 3) action =
        if 0 ≤ 0 + (tdMove action).1 ∧ 0 + (tdMove action).1 < GRID_SIZE ∧
            0 ≤ 3 + (tdMove action).2 ∧ 3 + (tdMove action).2 < GRID_SIZE then
          (0 + (tdMove action).1, 3 + (tdMove action).2)
        else ((0 : ℤ), (3 : ℤ))) :=
  claim_C2_env_transitions 0 3 (by norm_num) (by norm_num) (by norm_num) (by norm_num)

/-- C3: the value of the terminal state `(0, 0)` is exactly `0` at every
point of every solve: after every Bellman sweep of `value_iteration` and
`dp_prediction` (both iterate their sweep from the zero grid), after every
single TD(0) update (every update the episode loop performs targets a
non-terminal in-range state, and such an update never changes the terminal
slot), and at the end of any completed `td_prediction` run. -/
theorem claim_C3_terminal_zero :
    (∀ n : ℕ, vget (VI.sweep^[n] initialize_grid) 0 0 = 0) ∧
    (∀ n : ℕ, vget (DP.sweep^[n] initialize_grid) 0 0 = 0) ∧
    (∀ (V : Grid) (s : ℤ × ℤ) (a : ℕ), InRange s → s ≠ (0, 0) →
      vget (TD.td_update V s a) 0 0 = vget V 0 0) ∧
    (∀ (ρ : ℕ → ℕ) (fuel : ℕ) (episodes : ℤ) (V' : Grid),
      TD.td_prediction ρ fuel episodes = some V' → vget V' 0 0 = 0) := by
  have hVI : ∀ V : Grid, vget (VI.sweep V) 0 0 = vget V 0 0 := fun V => rfl
  have hDP : ∀ V : Grid, vget (DP.sweep V) 0 0 = vget V 0 0 := fun V => rfl
  refine ⟨?_, ?_, ?_, ?_⟩
  · intro n
    induction n with
    | zero => rfl
    | succ k ih => rw [Function.iterate_succ_apply', hVI, ih]
  · intro n
    induction n with
    | zero => rfl
    | succ k ih => rw [Function.iterate_succ_apply', hDP, ih]
  · intro V s a hs hne
    exact TD.td_update_keep a hs hne
  · intro ρ fuel episodes V' h
    unfold TD.td_prediction at h
    cases hrun : TD.run ρ fuel episodes.toNat initialize_grid 0 with
    | none => rw [hrun] at h; exact absurd h (by simp)
    | some p =>
      rw [hrun] at h
      simp only [Option.map_some', Option.some.injEq] at h
      rw [← h]
      exact TD.run_inv (fun V => vget V 0 0 = 0)
        (fun V s a hs hne hV => by
          show vget (TD.td_update V s a) 0 0 = 0
          rw [TD.td_update_keep a hs hne]
          exact hV)
        ρ fuel episodes.toNat initialize_grid 0 p.1 p.2 rfl hrun

/-- Witness for C3: a concrete sweep count and a concrete guarded TD
update. -/
theorem claim_C3_witness :
    vget (VI.sweep^[3] initialize_grid) 0 0 = 0 ∧
    vget (TD.td_update initialize_grid (1, 1) 0) 0 0 = vget initialize_grid 0 0 :=
  ⟨claim_C3_terminal_zero.1 3,
   claim_C3_terminal_zero.2.2.1 initialize_grid (1, 1) 0
     ⟨by norm_num, by norm_num, by norm_num, by norm_num⟩ (by decide)⟩

/-- C1: on the 4×4 grid with terminal state `(0, 0)`, running
`value_iteration` with `γ = 1`, `θ = 1e-4` and an iteration cap of at least
7 terminates after exactly 7 sweeps and returns the value grid
`[[0,-1,-2,-3],[-1,-2,-3,-4],[-2,-3,-4,-5],[-3,-4,-5,-6]]`. -/
theorem claim_C1_regression (m : ℤ) (hm : 7 ≤ m) :
    VI.value_iteration m = targetGrid ∧ VI.vi_iterations m = 7 := by
  have hF : 6 ≤ (m - 1).toNat := by omega
  have key : VI.loop VI.THETA m ((m - 1).toNat) initialize_grid 0 = (targetGrid, 7) := by
    rw [VI.loop_step VI.THETA m ((m - 1).toNat) initialize_grid 0
        (by omega) (not_or.mpr ⟨by decide, by omega⟩),
      show VI.sweep initialize_grid =
        [[0, -1, -1, -1], [-1, -1, -1, -1], [-1, -1, -1, -1], [-1, -1, -1, -1]] from by decide,
      VI.loop_step VI.THETA m ((m - 1).toNat - 1)
        [[0, -1, -1, -1], [-1, -1, -1, -1], [-1, -1, -1, -1], [-1, -1, -1, -1]] (0 + 1)
        (by omega) (not_or.mpr ⟨by decide, by omega⟩),
      show VI.sweep [[0, -1, -1, -1], [-1, -1, -1, -1], [-1, -1, -1, -1], [-1, -1, -1, -1]] =
        [[0, -1, -2, -2], [-1, -2, -2, -2], [-2, -2, -2, -2], [-2, -2, -2, -2]] from by decide,
      VI.loop_step VI.THETA m ((m - 1).toNat - 1 - 1)
        [[0, -1, -2, -2], [-1, -2, -2, -2], [-2, -2, -2, -2], [-2, -2, -2, -2]] (0 + 1 + 1)
        (by omega) (not_or.mpr ⟨by decide, by omega⟩),
      show VI.sweep [[0, -1, -2, -2], [-1, -2, -2, -2], [-2, -2, -2, -2], [-2, -2, -2, -2]] =
        [[0, -1, -2, -3], [-1, -2, -3, -3], [-2, -3, -3, -3], [-3, -3, -3, -3]] from by decide,
      VI.loop_step VI.THETA m ((m - 1).toNat - 1 - 1 - 1)
        [[0, -1, -2, -3], [-1, -2, -3, -3], [-2, -3, -3, -3], [-3, -3, -3, -3]] (0 + 1 + 1 + 1)
        (by omega) (not_or.mpr ⟨by decide, by omega⟩),
      show VI.sweep [[0, -1, -2, -3], [-1, -2, -3, -3], [-2, -3, -3, -3], [-3, -3, -3, -3]] =
        [[0, -1, -2, -3], [-1, -2, -3, -4], [-2, -3, -4, -4], [-3, -4, -4, -4]] from by decide,
      VI.loop_step VI.THETA m ((m - 1).toNat - 1 - 1 - 1 - 1)
        [[0, -1, -2, -3], [-1, -2, -3, -4], [-2, -3, -4, -4], [-3, -4, -4, -4]]
        (0 + 1 + 1 + 1 + 1) (by omega) (not_or.mpr ⟨by decide, by omega⟩),
      show VI.sweep [[0, -1, -2, -3], [-1, -2, -3, -4], [-2, -3, -4, -4], [-3, -4, -4, -4]] =
        [[0, -1, -2, -3], [-1, -2, -3, -4], [-2, -3, -4, -5], [-3, -4, -5, -5]] from by decide,
      VI.loop_step VI.THETA m ((m - 1).toNat - 1 - 1 - 1 - 1 - 1)
        [[0, -1, -2, -3], [-1, -2, -3, -4], [-2, -3, -4, -5], [-3, -4, -5, -5]]
        (0 + 1 + 1 + 1 + 1 + 1) (by omega) (not_or.mpr ⟨by decide, by omega⟩),
      show VI.sweep [[0, -1, -2, -3], [-1, -2, -3, -4], [-2, -3, -4, -5], [-3, -4, -5, -5]] =
        [[0, -1, -2, -3], [-1, -2, -3, -4], [-2, -3, -4, -5], [-3, -4, -5, -6]] from by decide,
      VI.loop_stop VI.THETA m ((m - 1).toNat - 1 - 1 - 1 - 1 - 1 - 1)
        [[0, -1, -2, -3], [-1, -2, -3, -4], [-2, -3, -4, -5], [-3, -4, -5, -6]]
        (0 + 1 + 1 + 1 + 1 + 1 + 1) (Or.inl (by decide))]
    decide
  constructor
  · show (VI.loop VI.THETA m ((m - 1).toNat) initialize_grid 0).1 = targetGrid
    rw [key]
  · show (VI.loop VI.THETA m ((m - 1).toNat) initialize_grid 0).2 = 7
    rw [key]

/-- Witness for C1 at the notebook's default cap `max_iters = 1000`. -/
theorem claim_C1_witness :
    VI.value_iteration 1000 = targetGrid ∧ VI.vi_iterations 1000 = 7 :=
  claim_C1_regression 1000 (by norm_num)

/-- C4 counterexample: with `θ = 0` (a non-positive threshold),
`dp_prediction`'s loop — which has no iteration cap in the source — never
terminates: no amount of fuel makes it return. -/
theorem claim_C4_counterexample :
    ¬ ∃ (fuel : ℕ) (G : Grid), DP.loopAux 0 fuel initialize_grid = some G := by
  rintro ⟨fuel, G, h⟩
  rw [DP.loop_none_of_theta_nonpos le_rfl] at h
  exact Option.noConfusion h

/-- C4 as amended: for every `θ ≤ 0`, `value_iteration` still terminates
via its iteration cap, after at most `max 1 max_iters` sweeps, returning
the last table; `dp_prediction` however has no iteration cap and never
terminates when `θ ≤ 0`. -/
theorem claim_C4_amended :
    (∀ (θ : ℚ) (m : ℤ), θ ≤ 0 → ((VI.value_iteration_run θ m).2 : ℤ) ≤ max 1 m) ∧
    (∀ θ : ℚ, θ ≤ 0 → ∀ fuel : ℕ, DP.loopAux θ fuel initialize_grid = none) := by
  constructor
  · intro θ m hθ
    have h := VI.loop_iterations_le θ m ((m - 1).toNat) initialize_grid 0
    unfold VI.value_iteration_run
    omega
  · intro θ hθ fuel
    exact DP.loop_none_of_theta_nonpos hθ fuel _

/-- Witness for the amended C4 at `θ = 0`, `max_iters = 5`. -/
theorem claim_C4_witness :
    ((VI.value_iteration_run 0 5).2 : ℤ) ≤ max 1 5 ∧
    DP.loopAux 0 2 initialize_grid = none :=
  ⟨claim_C4_amended.1 0 5 le_rfl, claim_C4_amended.2 0 le_rfl 2⟩

/-- C5 counterexample: `value_iteration` returns only the table.  With cap
6 the run stops at the cap after 6 sweeps, with cap 7 it converges after 7
sweeps, yet both return the identical grid — so the value returned cannot
carry the iteration count actually used (which the source only prints). -/
theorem claim_C5_counterexample :
    VI.value_iteration 6 = VI.value_iteration 7 ∧
    VI.vi_iterations 6 = 6 ∧ VI.vi_iterations 7 = 7 := by
  refine ⟨by decide, by decide, by decide⟩

/-- C5 as amended: every solve returns only the N×N value table;
`value_iteration`'s sweep counter is printed but is not part of the return
value — there are runs with different sweep counts and equal outputs. -/
theorem claim_C5_amended :
    (∀ m : ℤ, VI.value_iteration m = (VI.value_iteration_run VI.THETA m).1) ∧
    (∃ m1 m2 : ℤ, VI.value_iteration m1 = VI.value_iteration m2 ∧
      VI.vi_iterations m1 ≠ VI.vi_iterations m2) :=
  ⟨fun _ => rfl, 6, 7, by decide, by decide⟩

/-- C10: every entry of the value table is `≤ 0` at every point of every
solve: after every Bellman sweep of `value_iteration` and `dp_prediction`
(iterated from the zero table), after every single TD(0) update applied to
a non-positive table, and at the end of any completed `td_prediction` run
— tables start at zero and every update forms a maximum or convex
combination of terms `-1 + γ·V(s')` with `0 ≤ γ ≤ 1`, `0 < α ≤ 1`. -/
theorem claim_C10_nonpositive :
    (∀ (n : ℕ) (i j : ℤ), vget (VI.sweep^[n] initialize_grid) i j ≤ 0) ∧
    (∀ (n : ℕ) (i j : ℤ), vget (DP.sweep^[n] initialize_grid) i j ≤ 0) ∧
    (∀ (V : Grid) (s : ℤ × ℤ) (a : ℕ), (∀ i j : ℤ, vget V i j ≤ 0) →
      ∀ i j : ℤ, vget (TD.td_update V s a) i j ≤ 0) ∧
    (∀ (ρ : ℕ → ℕ) (fuel : ℕ) (episodes : ℤ) (V' : Grid),
      TD.td_prediction ρ fuel episodes = some V' → ∀ i j : ℤ, vget V' i j ≤ 0) := by
  have hinit : ∀ i j : ℤ, vget initialize_grid i j ≤ 0 := fun i j =>
    vget_of_all (by decide) i j
  refine ⟨?_, ?_, ?_, ?_⟩
  · intro n
    induction n with
    | zero => exact hinit
    | succ k ih =>
      intro i j
      rw [Function.iterate_succ_apply']
      exact VI.vi_sweep_nonpos ih i j
  · intro n
    induction n with
    | zero => exact hinit
    | succ k ih =>
      intro i j
      rw [Function.iterate_succ_apply']
      exact DP.dp_sweep_nonpos ih i j
  · exact fun V s a hV => TD.td_update_nonpos hV s a
  · intro ρ fuel episodes V' h
    unfold TD.td_prediction at h
    cases hrun : TD.run ρ fuel episodes.toNat initialize_grid 0 with
    | none => rw [hrun] at h; exact absurd h (by simp)
    | some p =>
      rw [hrun] at h
      simp only [Option.map_some', Option.some.injEq] at h
      rw [← h]
      exact TD.run_inv (fun V => ∀ i j : ℤ, vget V i j ≤ 0)
        (fun V s a _ _ hV => TD.td_update_nonpos hV s a)
        ρ fuel episodes.toNat initialize_grid 0 p.1 p.2 hinit hrun

/-- Witness for C10: two sweeps of each Bellman solver and one TD update
on the zero table, checked at a concrete entry. -/
theorem claim_C10_witness :
    vget (VI.sweep^[2] initialize_grid) 3 3 ≤ 0 ∧
    vget (DP.sweep^[2] initialize_grid) 3 3 ≤ 0 ∧
    vget (TD.td_update initialize_grid (1, 2) 1) 1 2 ≤ 0 :=
  ⟨claim_C10_nonpositive.1 2 3 3, claim_C10_nonpositive.2.1 2 3 3,
   claim_C10_nonpositive.2.2.1 initialize_grid (1, 2) 1
     (fun i j => vget_of_all (by decide) i j) 1 2⟩

/-- C6 counterexample: with the random stream constantly `0`, the first
episode of `td_prediction` starts at `(0, 0)` — the terminal state, not a
non-terminal one — and consequently all 1000 episodes perform no update at
all, returning the zero table. -/
theorem claim_C6_counterexample :
    TD.episodeStart (fun _ => 0) 0 = (0, 0) ∧ is_terminal (0, 0) = true ∧
    TD.td_prediction (fun _ => 0) 5 1000 = some initialize_grid := by
  refine ⟨rfl, rfl, by decide⟩

/-- C6 as amended: `td_prediction` runs `max(EPISODES, 0)` episodes; each
episode starts at a uniformly random state of the grid — possibly the
terminal state, in which case the episode stops immediately with no update
— and, while the current state is non-terminal, picks a random action in
`{0, 1, 2, 3}`, obtains the next state from the environment transition with
reward `-1`, applies `V(s) += α·(R + γ·V(s') − V(s))`, and stops the
episode exactly when the terminal state is reached. -/
theorem claim_C6_amended :
    (∀ (ρ : ℕ → ℕ) (fuel : ℕ) (V : Grid) (k : ℕ),
      TD.episode ρ fuel V (0, 0) k = some (V, k)) ∧
    (∀ (ρ : ℕ → ℕ) (f : ℕ) (V : Grid) (s : ℤ × ℤ) (k : ℕ), s ≠ (0, 0) →
      TD.episode ρ (f + 1) V s k =
        TD.episode ρ f (TD.td_update V s (ρ k % 4)) (TD.get_next_state s (ρ k % 4)) (k + 1)) ∧
    (∀ (V : Grid) (s : ℤ × ℤ) (a : ℕ), GridShape V → InRange s →
      vget (TD.td_update V s a) s.1 s.2 =
        vget V s.1 s.2 + TD.ALPHA * (-1 + TD.GAMMA *
          vget V (TD.get_next_state s a).1 (TD.get_next_state s a).2 - vget V s.1 s.2)) ∧
    (∀ (ρ : ℕ → ℕ) (k : ℕ), InRange (TD.episodeStart ρ k)) ∧
    (∀ (ρ : ℕ → ℕ) (fuel n : ℕ) (V : Grid) (k : ℕ),
      TD.run ρ fuel (n + 1) V k =
        match TD.episode ρ fuel V (TD.episodeStart ρ k) (k + 2) with
        | none => none
        | some (V', k') => TD.run ρ fuel n V' k') := by
  refine ⟨?_, ?_, ?_, TD.episodeStart_range, ?_⟩
  · intro ρ fuel V k
    cases fuel with
    | zero =>
      rw [TD.episode]
      rw [if_pos rfl]
    | succ f =>
      rw [TD.episode]
      rw [if_pos rfl]
  · intro ρ f V s k h
    rw [TD.episode]
    rw [if_neg h]
  · intro V s a hV hs
    unfold TD.td_update
    exact vget_vset_self hV _ hs
  · intro ρ fuel n V k
    rfl

/-- Witness for the amended C6: a concrete guarded TD update on the zero
table and a concrete terminal-start episode. -/
theorem claim_C6_witness :
    vget (TD.td_update initialize_grid (2, 1) 3) 2 1 =
      vget initialize_grid 2 1 + TD.ALPHA * (-1 + TD.GAMMA *
        vget initialize_grid (TD.get_next_state (2, 1) 3).1 (TD.get_next_state (2, 1) 3).2 -
        vget initialize_grid 2 1) ∧
    TD.episode (fun _ => 1) 0 initialize_grid (0, 0) 5 = some (initialize_grid, 5) :=
  ⟨claim_C6_amended.2.2.1 initialize_grid (2, 1) 3 ⟨by decide, by decide⟩
      ⟨by norm_num, by norm_num, by norm_num, by norm_num⟩,
   claim_C6_amended.1 (fun _ => 1) 0 initialize_grid 5⟩

/-- C9: the Monte Carlo mode, modelled from the spec (the MC notebook is
not under `src/`): episodes are full trajectories recorded with their
rewards (`-1` per step, only non-terminal states recorded, the trajectory
ending at the terminal state), returns are computed backward and the
backward pass agrees with the discounted sum `G_t = Σ_k γ^k R_{t+k}`, and
the averaging pass (first-visit or every-visit as selected) updates only
visited states. -/
theorem claim_C9_monte_carlo :
    (∀ (γ : ℚ) (l : List ℚ) (t : ℕ), t < l.length →
      (MC.returnsList γ l).getD t 0 = MC.returnOf γ (l.drop t)) ∧
    (∀ (γ : ℚ) (l : List ℚ),
      MC.returnOf γ l = ((List.range l.length).map fun k => γ ^ k * l.getD k 0).sum) ∧
    (∀ (ρ : ℕ → ℕ) (fuel : ℕ) (s : ℤ × ℤ) (k : ℕ) (traj : List ((ℤ × ℤ) × ℚ)) (k' : ℕ),
      MC.trajectory ρ fuel s k = some (traj, k') → ∀ p ∈ traj, p.1 ≠ (0, 0) ∧ p.2 = -1) ∧
    (∀ (fv : Bool) (γ : ℚ) (traj : List ((ℤ × ℤ) × ℚ)) (V : Grid) (C : MC.Counts)
      (i j : ℤ), (∀ p ∈ traj, p.1.1.toNat ≠ i.toNat ∨ p.1.2.toNat ≠ j.toNat) →
      vget (MC.mc_episode fv γ traj V C).1 i j = vget V i j) := by
  refine ⟨?_, ?_, ?_, ?_⟩
  · intro γ l
    induction l with
    | nil => intro t ht; exact absurd ht (by simp)
    | cons r rest ih =>
      intro t ht
      cases t with
      | zero =>
        show r + γ * (MC.returnsList γ rest).headD 0 = MC.returnOf γ (r :: rest)
        rw [MC.headD_returnsList]
        rfl
      | succ tt =>
        show (MC.returnsList γ rest).getD tt 0 = MC.returnOf γ (rest.drop tt)
        exact ih tt (by simp only [List.length_cons] at ht; omega)
  · intro γ l
    induction l with
    | nil => rfl
    | cons r rest ih =>
      show r + γ * MC.returnOf γ rest = _
      rw [ih, List.length_cons, List.range_succ_eq_map, List.map_cons, List.sum_cons,
        List.map_map]
      simp only [pow_zero, one_mul, List.getD_cons_zero, Function.comp_def,
        List.getD_cons_succ, pow_succ', mul_assoc]
      rw [sum_map_mul]
  · intro ρ fuel
    induction fuel with
    | zero =>
      intro s k traj k' h p hp
      rw [MC.trajectory] at h
      split at h
      · simp only [Option.some.injEq, Prod.mk.injEq] at h
        rw [← h.1] at hp
        exact absurd hp (List.not_mem_nil p)
      · exact absurd h (by simp)
    | succ f ih =>
      intro s k traj k' h p hp
      rw [MC.trajectory] at h
      split at h
      · simp only [Option.some.injEq, Prod.mk.injEq] at h
        rw [← h.1] at hp
        exact absurd hp (List.not_mem_nil p)
      · rename_i hne
        cases heq : MC.trajectory ρ f (TD.get_next_state s (ρ k % 4)) (k + 1) with
        | none => rw [heq] at h; exact absurd h (by simp)
        | some q =>
          rw [heq] at h
          obtain ⟨rest, k2⟩ := q
          simp only [Option.some.injEq, Prod.mk.injEq] at h
          rw [← h.1] at hp
          rcases List.mem_cons.1 hp with heqp | hmem
          · rw [heqp]
            exact ⟨hne, rfl⟩
          · exact ih _ _ rest k2 heq p hmem
  · intro fv γ traj V C i j h
    unfold MC.mc_episode
    apply MC.applyReturns_unvisited
    intro p hp
    obtain ⟨p1, p2⟩ := p
    have hp1 : p1 ∈ traj.map Prod.fst := (List.of_mem_zip hp).1
    obtain ⟨q, hq, hq1⟩ := List.mem_map.1 hp1
    have := h q hq
    rw [hq1] at this
    exact this

/-- Witness for C9: the backward returns pass at a concrete reward list,
discount and position. -/
theorem claim_C9_witness :
    (MC.returnsList (9 / 10) [-1, -1, -1]).getD 0 0 =
      MC.returnOf (9 / 10) ([-1, -1, -1].drop 0) :=
  claim_C9_monte_carlo.1 (9 / 10) [-1, -1, -1] 0 (by decide)

/-- C8 counterexample: called with a negative episode count — an invalid
configuration — `td_prediction` does not fail: it runs zero episodes and
returns the zero-initialized table. -/
theorem claim_C8_counterexample :
    TD.td_prediction (fun _ => 0) 1 (-1) = some initialize_grid := rfl

/-- C8 as amended: no solver validates its configuration.  Grid size, γ
and θ are hardwired module constants, and a negative episode count makes
`td_prediction` silently run zero episodes and return the zero table
instead of raising a validation error. -/
theorem claim_C8_amended (ρ : ℕ → ℕ) (fuel : ℕ) (episodes : ℤ)
    (h : episodes < 0) : TD.td_prediction ρ fuel episodes = some initialize_grid := by
  unfold TD.td_prediction
  have he : episodes.toNat = 0 := by omega
  rw [he]
  rfl

/-- Witness for the amended C8. -/
theorem claim_C8_witness : TD.td_prediction (fun _ => 0) 3 (-2) = some initialize_grid :=
  claim_C8_amended (fun _ => 0) 3 (-2) (by norm_num)

set_option maxHeartbeats 12000000 in
/-- C7: for every converged Bellman-sweep run — `value_iteration` with its
configuration (γ=1, θ=1e-4, cap 1000) and `dp_prediction` with its
configuration (γ=0.9, θ=1e-4; it converges within 300 sweeps of fuel, as
the first conjunct certifies) — and every pair of grid states, a state
strictly closer to the terminal `(0, 0)` in Manhattan distance has a
strictly greater value. -/
theorem claim_C7_monotonicity :
    (DP.dp_prediction 300).isSome = true ∧
    (∀ s1 ∈ states, ∀ s2 ∈ states, manhattan s1 < manhattan s2 →
      vget (VI.value_iteration 1000) s2.1 s2.2 < vget (VI.value_iteration 1000) s1.1 s1.2 ∧
      vget DP.dp_result s2.1 s2.2 < vget DP.dp_result s1.1 s1.2) := by
  constructor
  · decide
  · decide

/-- Witness for C7: the state `(0, 1)` at distance 1 beats the far corner
`(3, 3)` in both converged tables. -/
theorem claim_C7_witness :
    vget (VI.value_iteration 1000) 3 3 < vget (VI.value_iteration 1000) 0 1 ∧
    vget DP.dp_result 3 3 < vget DP.dp_result 0 1 :=
  claim_C7_monotonicity.2 (0, 1) (by decide) (3, 3) (by decide) (by decide)
